import Mathlib

/-!
Verification development for the GCP IMDS telegraf processor.

Shallow embedding of `plugins/processors/gcp/imds/gcp.go` and of the parts of
`internal/imds` it uses.  The collaborators that live outside the repository
(the metric record, the expiring cache, the dispatch engine, the logger) are
modelled at their interface.
-/

namespace GcpImds

/-! ## Records -/

/-- A telemetry record: a payload the processor never inspects and the tag list. -/
structure Metric where
  name : String
  tags : List (String × String)
deriving DecidableEq, Repr

/-- Modelled from the spec: the record's tag storage is an external collaborator
(telegraf.Metric); its tag list is a mapping from tag name to value with unique keys,
insertion order irrelevant.  Adding a tag overwrites the value of the entry that has
the key, and adds a new entry when there is none. -/
def addTagList (key value : String) : List (String × String) → List (String × String)
  | [] => [(key, value)]
  | (k, v) :: rest =>
    if k = key then (k, value) :: rest
    else (k, v) :: addTagList key value rest

/-- Modelled from the spec: lookup of a tag in a tag list, first match. -/
def getTagList (key : String) : List (String × String) → Option String
  | [] => none
  | (k, v) :: rest => if k = key then some v else getTagList key rest

/-- The call `metric.AddTag(key, value)`. -/
def Metric.AddTag (m : Metric) (key value : String) : Metric :=
  { m with tags := addTagList key value m.tags }

/-- The call `metric.GetTag(key)`. -/
def Metric.GetTag (m : Metric) (key : String) : Option String :=
  getTagList key m.tags

/-! ## Expiring cache -/

/-- Modelled from the spec: CacheEntry `(key, value, expiresAt: optional timestamp)`;
the cache itself (freecache) is not part of the repository. -/
structure CacheEntry where
  key : String
  value : String
  expiresAt : Option Nat
deriving DecidableEq, Repr

/-- Modelled from the spec: CacheStore, a collection of CacheEntry addressed by key. -/
structure Cache where
  entries : List CacheEntry
deriving DecidableEq, Repr

/-- Modelled from the spec: an entry with no expiration never expires; an entry past
its expiration is treated as absent. -/
def CacheEntry.expired (e : CacheEntry) (now : Nat) : Bool :=
  match e.expiresAt with
  | none => false
  | some t => decide (t < now)

/-- Modelled from the spec: `get(key)` returns the value only if present and not
expired; `none` stands for NotFound. -/
def Cache.Get (c : Cache) (now : Nat) (key : String) : Option String :=
  match c.entries.find? (fun e => e.key == key) with
  | none => none
  | some e => if e.expired now then none else some e.value

/-- Modelled from the spec: the expiration given to an entry by `set(key, value, ttl)`:
`ttl = 0` means never expires, `ttl > 0` sets the absolute expiration `now + ttl`.
The spec leaves a negative `ttl` open; it is given no expiration here. -/
def expiresAtOf (now : Nat) (ttl : Int) : Option Nat :=
  if 0 < ttl then some (now + ttl.toNat) else none

/-- Modelled from the spec: `set(key, value, ttl)` inserts or overwrites the entry. -/
def Cache.Set (c : Cache) (now : Nat) (key value : String) (ttl : Int) : Cache :=
  { entries := { key := key, value := value, expiresAt := expiresAtOf now ttl }
      :: c.entries.filter (fun e => e.key != key) }

/-! ## Metadata document (`internal/imds`) -/

/-- The shape of the metadata instance document. -/
structure InstanceIdentityDocument where
  Hostname : String
  ID : String
  Image : String
  MachineType : String
  Zone : String
deriving DecidableEq, Repr

/-- The output of `GetInstanceMetadata` embeds the document. -/
abbrev GetMetadataInstanceOutput := InstanceIdentityDocument

/-! ## Logger and dispatch engine handles -/

inductive LogLevel where
  | debug
  | error
deriving DecidableEq, Repr

/-- One line written through `telegraf.Logger`. -/
structure LogEntry where
  level : LogLevel
  msg : String
deriving DecidableEq, Repr

/-- The handle returned by `parallel.NewOrdered` / `parallel.NewUnordered`
(an external collaborator): what it was built with and whether `Stop` was called on it. -/
structure Parallel where
  ordered : Bool
  queueSize : Option Int
  workers : Int
  stopped : Bool
deriving DecidableEq, Repr

/-! ## The processor -/

structure GCPIMDSProcessor where
  ImdsTags : List String
  Timeout : Int
  CacheTTL : Int
  Ordered : Bool
  MaxParallelCalls : Int
  Log : List LogEntry
  TagCacheSize : Int
  LogCacheStats : Bool
  tagCache : Option Cache
  imdsTagsMap : List String
  parallelEngine : Option Parallel
  workerCancelled : Bool
deriving DecidableEq, Repr

/-- Nanoseconds in a second (`time.Second`). -/
def Second : Int := 1000000000

def Hour : Int := 3600 * Second

def DefaultMaxOrderedQueueSize : Int := 10000
def DefaultMaxParallelCalls : Int := 10
def DefaultTimeout : Int := 10 * Second
def DefaultCacheTTL : Int := 0 * Hour
def DefaultCacheSize : Int := 1000
def DefaultLogCacheStats : Bool := false

/-- The key set of the map `allowedImdsTags`. -/
def allowedImdsTags : List String :=
  ["hostname", "machineType", "image", "id", "zone"]

def isImdsTagAllowed (tag : String) : Bool :=
  allowedImdsTags.contains tag

/-- Insertion of a key into a Go `map[string]struct{}`, kept as its list of distinct keys. -/
def mapInsert (tag : String) (m : List String) : List String :=
  if tag ∈ m then m else m ++ [tag]

def newGCPIMDSProcessor : GCPIMDSProcessor :=
  { ImdsTags := []
    Timeout := DefaultTimeout
    CacheTTL := DefaultCacheTTL
    Ordered := false
    MaxParallelCalls := DefaultMaxParallelCalls
    Log := []
    TagCacheSize := DefaultCacheSize
    LogCacheStats := false
    tagCache := none
    imdsTagsMap := []
    parallelEngine := none
    workerCancelled := false }

/-- The loop of `Init` over `r.ImdsTags`: the map built so far and the error, if any. -/
def initLoop : List String → List String → List String × Option String
  | [], m => (m, none)
  | tag :: rest, m =>
    if tag.utf8ByteSize == 0 || !isImdsTagAllowed tag then
      (m, some ("not allowed metadata tag specified in configuration: " ++ tag))
    else initLoop rest (mapInsert tag m)

/-- The method `Init`: the processor afterwards and the returned error (`none` is nil). -/
def Init (r : GCPIMDSProcessor) : GCPIMDSProcessor × Option String :=
  let r1 := { r with Log := r.Log ++ [⟨LogLevel.debug, "Initializing GCP IMDS Processor"⟩] }
  if r1.ImdsTags.length == 0 then
    (r1, some "no tags specified in configuration")
  else
    let res := initLoop r1.ImdsTags r1.imdsTagsMap
    let r2 := { r1 with imdsTagsMap := res.1 }
    match res.2 with
    | some e => (r2, some e)
    | none =>
      if r2.imdsTagsMap.length == 0 then
        (r2, some "no allowed metadata tags specified in configuration")
      else (r2, none)

/-! ## Enrichment -/

/-- The whole seconds of a duration given in nanoseconds: `int(d.Seconds())`.
`Seconds` returns the float64 `sec + nsec/1e9` and the conversion to `int`
truncates toward zero; the float sum can round up to the next whole second only
for durations above 2^24 seconds with a nanosecond part near one second, so the
value modelled is the truncated quotient. -/
def durationSeconds (d : Int) : Int :=
  Int.tdiv d Second

/-- The value `expiration` that `LookupIMDSTags` hands to the cache `Set`. -/
def expirationOf (r : GCPIMDSProcessor) : Int :=
  durationSeconds r.CacheTTL

def getTagFromInstanceIdentityDocument (o : GetMetadataInstanceOutput) (tag : String) : String :=
  if tag = "hostname" then o.Hostname
  else if tag = "image" then o.Image
  else if tag = "machineType" then o.MachineType
  else if tag = "id" then o.ID
  else if tag = "zone" then o.Zone
  else ""

/-- What one call of `LookupIMDSTags` meets outside the processor: the clock of the
cache, the error the cache answers to a `Set` of a key and value (`none` is nil; a
`Set` that returns an error stores nothing), and the result of `GetInstanceMetadata`
should it be called (a deadline exceeded is one of its errors). -/
structure CallEnv where
  now : Nat
  setError : String → String → Option String
  fetch : Except String GetMetadataInstanceOutput

/-- The first loop of `LookupIMDSTags`, over the keys of `imdsTagsMap` in the order
the `range` visits them: cache hits are applied to the record, misses are collected. -/
def lookupCached (c : Cache) (now : Nat) :
    List String → Metric → List String → Metric × List String
  | [], metric, tagsNotFound => (metric, tagsNotFound)
  | tag :: rest, metric, tagsNotFound =>
    match c.Get now tag with
    | none => lookupCached c now rest metric (tagsNotFound ++ [tag])
    | some val => lookupCached c now rest (metric.AddTag tag val) tagsNotFound

/-- The tag a record shows for `k` once the cache hits among `order` are applied. -/
def cachedView (c : Cache) (now : Nat) (order : List String) (m : Metric)
    (k : String) : Option String :=
  if k ∈ order then
    match c.Get now k with
    | some v => some v
    | none => m.GetTag k
  else m.GetTag k

/-- The state the second loop of `LookupIMDSTags` works on. -/
structure FetchState where
  metric : Metric
  cache : Cache
  log : List LogEntry
  cacheSets : List (String × String × Int)
deriving DecidableEq, Repr

/-- One round of the second loop of `LookupIMDSTags`. -/
def applyFetchedTag (expiration : Int) (env : CallEnv) (iido : GetMetadataInstanceOutput)
    (st : FetchState) (tag : String) : FetchState :=
  let v := getTagFromInstanceIdentityDocument iido tag
  if v != "" then
    let metric := st.metric.AddTag tag v
    let sets := st.cacheSets ++ [(tag, v, expiration)]
    match env.setError tag v with
    | none =>
      { metric := metric, cache := st.cache.Set env.now tag v expiration,
        log := st.log, cacheSets := sets }
    | some err =>
      { metric := metric, cache := st.cache,
        log := st.log ++
          [⟨LogLevel.error, "Error when setting IMDS tag cache value: " ++ err⟩],
        cacheSets := sets }
  else st

/-- The second loop of `LookupIMDSTags`, over `tagsNotFound`. -/
def applyFetched (expiration : Int) (env : CallEnv) (iido : GetMetadataInstanceOutput) :
    List String → FetchState → FetchState
  | [], st => st
  | tag :: rest, st =>
    applyFetched expiration env iido rest (applyFetchedTag expiration env iido st tag)

/-- The cache `Set` calls the second loop issues for the names `tagsNotFound`: one
for each name whose document field is not empty. -/
def fetchedSets (expiration : Int) (iido : GetMetadataInstanceOutput)
    (tagsNotFound : List String) : List (String × String × Int) :=
  (tagsNotFound.filter (fun t => getTagFromInstanceIdentityDocument iido t != "")).map
    (fun t => (t, getTagFromInstanceIdentityDocument iido t, expiration))

/-- The value stored under `key`, expired or not. -/
def Cache.peek (c : Cache) (key : String) : Option String :=
  (c.entries.find? (fun e => e.key == key)).map (fun e => e.value)

/-- What a call of `LookupIMDSTags` leaves behind: the returned record, the processor
(its cache and its log), the number of calls of `GetInstanceMetadata`, and the
cache `Set` calls issued, as (key, value, expiration). -/
structure Outcome where
  metric : Metric
  processor : GCPIMDSProcessor
  adapterCalls : Nat
  cacheSets : List (String × String × Int)
deriving DecidableEq, Repr

/-- The method `LookupIMDSTags`; `order` is the order in which `range r.imdsTagsMap`
visits the keys.  Before `Start` the cache is nil and the call does not return. -/
def LookupIMDSTags (r : GCPIMDSProcessor) (env : CallEnv) (order : List String)
    (metric : Metric) : Option Outcome :=
  match r.tagCache with
  | none => none
  | some c =>
    let found := lookupCached c env.now order metric []
    let metric1 := found.1
    let tagsNotFound := found.2
    if tagsNotFound.length == 0 then
      some { metric := metric1, processor := r, adapterCalls := 0, cacheSets := [] }
    else
      match env.fetch with
      | Except.error err =>
        some { metric := metric1,
               processor := { r with Log := r.Log ++
                 [⟨LogLevel.error, "Error when calling GetInstanceMetadata: " ++ err⟩] },
               adapterCalls := 1, cacheSets := [] }
      | Except.ok iido =>
        let st := applyFetched (expirationOf r) env iido tagsNotFound
          { metric := metric1, cache := c, log := r.Log, cacheSets := [] }
        some { metric := st.metric,
               processor := { r with tagCache := some st.cache, Log := st.log },
               adapterCalls := 1, cacheSets := st.cacheSets }

/-- The tag the record returned by `LookupIMDSTags` shows for `k`, read off the
cache, the visited names and the result of the metadata call. -/
def resultView (c : Cache) (env : CallEnv) (order : List String) (m : Metric)
    (k : String) : Option String :=
  match env.fetch with
  | Except.ok d =>
    if k ∈ order ∧ c.Get env.now k = none ∧ getTagFromInstanceIdentityDocument d k ≠ "" then
      some (getTagFromInstanceIdentityDocument d k)
    else cachedView c env.now order m k
  | Except.error _ => cachedView c env.now order m k

/-- What a call of `asyncAdd` leaves behind: the returned slice of records and the rest. -/
structure AsyncOutcome where
  metrics : List Metric
  processor : GCPIMDSProcessor
  adapterCalls : Nat
  cacheSets : List (String × String × Int)
deriving DecidableEq, Repr

/-- The method `asyncAdd`. -/
def asyncAdd (r : GCPIMDSProcessor) (env : CallEnv) (order : List String)
    (metric : Metric) : Option AsyncOutcome :=
  if r.imdsTagsMap.length > 0 then
    match LookupIMDSTags r env order metric with
    | none => none
    | some o => some { metrics := [o.metric], processor := o.processor,
                       adapterCalls := o.adapterCalls, cacheSets := o.cacheSets }
  else
    some { metrics := [metric], processor := r, adapterCalls := 0, cacheSets := [] }

/-! ## Lifecycle -/

/-- The method `Start`: a new empty cache, the debug lines, and the dispatch engine
of the configured mode.  The statistics goroutine (it only reads and resets the
counters of the cache) and the metadata client (its answer is part of `CallEnv`)
are left out. -/
def Start (r : GCPIMDSProcessor) : GCPIMDSProcessor × Option String :=
  let log1 := r.Log ++ [⟨LogLevel.debug, "cache: size=" ++ toString r.TagCacheSize ++ "\n"⟩]
  let log2 := if r.CacheTTL > 0 then
      log1 ++ [⟨LogLevel.debug, "cache timeout: seconds=" ++
        toString (durationSeconds r.CacheTTL) ++ "\n"⟩]
    else log1
  let engine : Parallel := if r.Ordered then
      { ordered := true, queueSize := some DefaultMaxOrderedQueueSize,
        workers := r.MaxParallelCalls, stopped := false }
    else
      { ordered := false, queueSize := none, workers := r.MaxParallelCalls, stopped := false }
  ({ r with tagCache := some { entries := [] }, Log := log2, parallelEngine := some engine }, none)

/-- The method `Stop`: stops the dispatch engine when there is one and cancels the
worker context. -/
def Stop (r : GCPIMDSProcessor) : GCPIMDSProcessor :=
  let engine := match r.parallelEngine with
    | none => none
    | some p => some { p with stopped := true }
  { r with parallelEngine := engine, workerCancelled := true }

/-- How the call `r.parallel.Enqueue(metric)` of the external dispatch engine ends:
it returns, or it does not return to `Add` (it panics or blocks for good). -/
inductive EnqueueEnd where
  | returns
  | noReturn
deriving DecidableEq, Repr

/-- The method `Add`: `none` when `Enqueue` does not return (a nil engine included),
otherwise the error `Add` returns (`none` inside is nil). -/
def Add (r : GCPIMDSProcessor) (enqueue : Parallel → Metric → EnqueueEnd)
    (metric : Metric) : Option (Option String) :=
  match r.parallelEngine with
  | none => none
  | some p =>
    match enqueue p metric with
    | EnqueueEnd.noReturn => none
    | EnqueueEnd.returns => some none

/-! ## Concrete data -/

/-- The processor of the test (tags id and zone), after `Init` and `Start`. -/
def exampleProcessor : GCPIMDSProcessor :=
  (Start (Init { newGCPIMDSProcessor with ImdsTags := ["id", "zone"] }).1).1

/-- The same processor configured with a cache TTL of half a second. -/
def halfSecondProcessor : GCPIMDSProcessor :=
  (Start (Init { newGCPIMDSProcessor with
    ImdsTags := ["id", "zone"], CacheTTL := 500000000 }).1).1

def exampleDocument : GetMetadataInstanceOutput :=
  { Hostname := "", ID := "i-1", Image := "", MachineType := "", Zone := "us-central1-a" }

/-- A document whose zone field is empty. -/
def documentWithoutZone : GetMetadataInstanceOutput :=
  { Hostname := "", ID := "i-1", Image := "", MachineType := "", Zone := "" }

def exampleMetric : Metric :=
  { name := "cpu", tags := [("host", "a")] }

def envOk : CallEnv :=
  { now := 100, setError := fun _ _ => none, fetch := Except.ok exampleDocument }

def envWithoutZone : CallEnv :=
  { now := 100, setError := fun _ _ => none, fetch := Except.ok documentWithoutZone }

/-- The metadata call succeeds and the cache refuses every write. -/
def envCacheRefuses : CallEnv :=
  { now := 100, setError := fun _ _ => some "entry too large",
    fetch := Except.ok exampleDocument }

def envFailing : CallEnv :=
  { now := 100, setError := fun _ _ => none, fetch := Except.error "context deadline exceeded" }

/-- A cache that holds both tags. -/
def warmCache : Cache :=
  { entries := [{ key := "id", value := "i-1", expiresAt := none },
                { key := "zone", value := "us-central1-a", expiresAt := none }] }

/-- A cache that holds the id only. -/
def idOnlyCache : Cache :=
  { entries := [{ key := "id", value := "i-1", expiresAt := none }] }

def warmProcessor : GCPIMDSProcessor :=
  { exampleProcessor with tagCache := some warmCache }

def idOnlyProcessor : GCPIMDSProcessor :=
  { exampleProcessor with tagCache := some idOnlyCache }

end GcpImds

namespace GcpImds

/-! ## The allow-list and `Init` -/

theorem isImdsTagAllowed_iff (t : String) :
    isImdsTagAllowed t = true ↔
      (t = "hostname" ∨ t = "id" ∨ t = "image" ∨ t = "machineType" ∨ t = "zone") := by
  simp only [isImdsTagAllowed, allowedImdsTags, List.contains_iff_exists_mem_beq]
  constructor
  · rintro ⟨a, ha, hb⟩
    have hta : t = a := by simpa using hb
    subst hta
    simp at ha
    tauto
  · intro h
    refine ⟨t, ?_, by simp⟩
    simp
    tauto

theorem allowed_size_ne_zero (t : String) (h : isImdsTagAllowed t = true) :
    (t.utf8ByteSize == 0) = false := by
  rw [isImdsTagAllowed_iff] at h
  rcases h with h | h | h | h | h <;> subst h <;> decide

theorem mapInsert_ne_nil (t : String) (m : List String) : mapInsert t m ≠ [] := by
  unfold mapInsert
  split
  · rename_i h
    intro hm
    rw [hm] at h
    simp at h
  · simp

theorem initLoop_error_iff (tags m : List String) :
    (initLoop tags m).2 ≠ none ↔ ∃ t ∈ tags, isImdsTagAllowed t = false := by
  induction tags generalizing m with
  | nil => simp [initLoop]
  | cons t rest ih =>
    unfold initLoop
    by_cases ha : isImdsTagAllowed t = true
    · have hs := allowed_size_ne_zero t ha
      simp [ha, hs, ih]
    · have ha2 : isImdsTagAllowed t = false := by simpa using ha
      simp [ha2]

theorem initLoop_map_ne_nil (tags m : List String) (hm : m ≠ [] ∨ tags ≠ [])
    (h : (initLoop tags m).2 = none) : (initLoop tags m).1 ≠ [] := by
  induction tags generalizing m with
  | nil =>
    rcases hm with hm | hm
    · simpa [initLoop] using hm
    · exact absurd rfl hm
  | cons t rest ih =>
    unfold initLoop at h ⊢
    split
    · rename_i hc
      rw [if_pos hc] at h
      simp at h
    · rename_i hc
      rw [if_neg hc] at h
      exact ih (mapInsert t m) (Or.inl (mapInsert_ne_nil t m)) h

theorem Init_error_iff_aux (r : GCPIMDSProcessor) :
    (Init r).2 ≠ none ↔
      (r.ImdsTags = [] ∨ ∃ t ∈ r.ImdsTags, isImdsTagAllowed t = false) := by
  unfold Init
  by_cases h0 : r.ImdsTags = []
  · simp [h0]
  · have hlen : (r.ImdsTags.length == 0) = false := by
      simpa using h0
    simp only [hlen]
    by_cases he : (initLoop r.ImdsTags r.imdsTagsMap).2 = none
    · have hne := initLoop_map_ne_nil r.ImdsTags r.imdsTagsMap (Or.inr h0) he
      have hno : ¬ ∃ t ∈ r.ImdsTags, isImdsTagAllowed t = false := by
        rw [← initLoop_error_iff r.ImdsTags r.imdsTagsMap]
        simpa using he
      have hlen2 : ((initLoop r.ImdsTags r.imdsTagsMap).1.length == 0) = false := by
        simpa using hne
      simp [he, hlen2, h0, hno]
    · have hyes : ∃ t ∈ r.ImdsTags, isImdsTagAllowed t = false :=
        (initLoop_error_iff r.ImdsTags r.imdsTagsMap).1 he
      cases hE : (initLoop r.ImdsTags r.imdsTagsMap).2 with
      | none => exact absurd hE he
      | some e =>
        simp [h0]
        exact hyes

/-- C1: for a processor freshly built by `newGCPIMDSProcessor` and any list `ImdsTags`,
`Init` returns an error exactly when the list is empty or holds an element that is
not one of hostname, id, image, machineType, zone; and `Init` succeeds for
`["id", "zone"]`, as the test asserts. -/
theorem Init_error_iff :
    (∀ tags : List String,
      (Init { newGCPIMDSProcessor with ImdsTags := tags }).2.isSome = true ↔
        (tags = [] ∨ ∃ t ∈ tags, ¬ (t = "hostname" ∨ t = "id" ∨ t = "image" ∨
          t = "machineType" ∨ t = "zone"))) ∧
    (Init { newGCPIMDSProcessor with ImdsTags := ["id", "zone"] }).2 = none := by
  refine ⟨?_, by decide⟩
  intro tags
  rw [Option.isSome_iff_ne_none, Init_error_iff_aux]
  simp only [← isImdsTagAllowed_iff, Bool.not_eq_true]

/-! ## Tag lists -/

theorem getTagList_addTagList_same (k v : String) (l : List (String × String)) :
    getTagList k (addTagList k v l) = some v := by
  induction l with
  | nil => simp [addTagList, getTagList]
  | cons p rest ih =>
    obtain ⟨k0, v0⟩ := p
    unfold addTagList
    by_cases h : k0 = k
    · simp [h, getTagList]
    · simp [h, getTagList, ih]

theorem getTagList_addTagList_other (k k2 v : String) (l : List (String × String))
    (hne : k2 ≠ k) : getTagList k2 (addTagList k v l) = getTagList k2 l := by
  have hkk : ¬ k = k2 := fun h => hne h.symm
  induction l with
  | nil => simp [addTagList, getTagList, hkk]
  | cons p rest ih =>
    obtain ⟨k0, v0⟩ := p
    unfold addTagList
    by_cases h : k0 = k
    · subst h
      simp [getTagList, hkk]
    · by_cases h2 : k0 = k2
      · subst h2
        simp [h, getTagList]
      · simp [h, getTagList, h2, ih]

theorem GetTag_AddTag_same (m : Metric) (k v : String) :
    (m.AddTag k v).GetTag k = some v :=
  getTagList_addTagList_same k v m.tags

theorem GetTag_AddTag_other (m : Metric) (k k2 v : String) (hne : k2 ≠ k) :
    (m.AddTag k v).GetTag k2 = m.GetTag k2 :=
  getTagList_addTagList_other k k2 v m.tags hne

theorem GetTag_AddTag (m : Metric) (k k2 v : String) :
    (m.AddTag k v).GetTag k2 = if k2 = k then some v else m.GetTag k2 := by
  by_cases h : k2 = k
  · subst h
    simp [GetTag_AddTag_same]
  · simp [h, GetTag_AddTag_other m k k2 v h]

/-! ## The first loop -/

theorem lookupCached_notFound (c : Cache) (now : Nat) (order : List String) (m : Metric)
    (nf : List String) :
    (lookupCached c now order m nf).2 =
      nf ++ order.filter (fun t => (c.Get now t).isNone) := by
  induction order generalizing m nf with
  | nil => simp [lookupCached]
  | cons t rest ih =>
    unfold lookupCached
    cases hg : c.Get now t with
    | none => simp [ih, hg]
    | some v => simp [ih, hg]

theorem lookupCached_name (c : Cache) (now : Nat) (order : List String) (m : Metric)
    (nf : List String) : (lookupCached c now order m nf).1.name = m.name := by
  induction order generalizing m nf with
  | nil => simp [lookupCached]
  | cons t rest ih =>
    unfold lookupCached
    cases hg : c.Get now t with
    | none => simp [ih]
    | some v => simp [ih, Metric.AddTag]

theorem lookupCached_GetTag (c : Cache) (now : Nat) (order : List String) (m : Metric)
    (nf : List String) (k : String) :
    (lookupCached c now order m nf).1.GetTag k = cachedView c now order m k := by
  induction order generalizing m nf with
  | nil => simp [lookupCached, cachedView]
  | cons t rest ih =>
    unfold lookupCached
    cases hg : c.Get now t with
    | none =>
      simp only [ih, cachedView]
      by_cases hk : k = t
      · subst hk
        simp [hg]
      · simp [hk]
    | some v =>
      simp only [ih, cachedView, GetTag_AddTag]
      by_cases hk : k = t
      · subst hk
        simp [hg]
      · simp [hk]

/-! ## The second loop -/

theorem applyFetchedTag_GetTag (x : Int) (env : CallEnv) (d : GetMetadataInstanceOutput)
    (st : FetchState) (tag k : String) :
    (applyFetchedTag x env d st tag).metric.GetTag k =
      if k = tag ∧ getTagFromInstanceIdentityDocument d tag ≠ "" then
        some (getTagFromInstanceIdentityDocument d tag)
      else st.metric.GetTag k := by
  unfold applyFetchedTag
  by_cases hv : getTagFromInstanceIdentityDocument d tag = ""
  · simp [hv]
  · cases ha : env.setError tag (getTagFromInstanceIdentityDocument d tag) with
    | none => simp [hv, ha, GetTag_AddTag]
    | some err => simp [hv, ha, GetTag_AddTag]

theorem applyFetchedTag_name (x : Int) (env : CallEnv) (d : GetMetadataInstanceOutput)
    (st : FetchState) (tag : String) :
    (applyFetchedTag x env d st tag).metric.name = st.metric.name := by
  unfold applyFetchedTag
  by_cases hv : getTagFromInstanceIdentityDocument d tag = ""
  · simp [hv]
  · cases ha : env.setError tag (getTagFromInstanceIdentityDocument d tag) with
    | none => simp [hv, ha, Metric.AddTag]
    | some err => simp [hv, ha, Metric.AddTag]

theorem applyFetchedTag_cacheSets (x : Int) (env : CallEnv) (d : GetMetadataInstanceOutput)
    (st : FetchState) (tag : String) :
    (applyFetchedTag x env d st tag).cacheSets = st.cacheSets ++ fetchedSets x d [tag] := by
  unfold applyFetchedTag fetchedSets
  by_cases hv : getTagFromInstanceIdentityDocument d tag = ""
  · simp [hv]
  · cases ha : env.setError tag (getTagFromInstanceIdentityDocument d tag) with
    | none => simp [hv, ha, List.filter_cons]
    | some err => simp [hv, ha, List.filter_cons]

theorem applyFetched_GetTag (x : Int) (env : CallEnv) (d : GetMetadataInstanceOutput)
    (nf : List String) (st : FetchState) (k : String) :
    (applyFetched x env d nf st).metric.GetTag k =
      if k ∈ nf ∧ getTagFromInstanceIdentityDocument d k ≠ "" then
        some (getTagFromInstanceIdentityDocument d k)
      else st.metric.GetTag k := by
  induction nf generalizing st with
  | nil => simp [applyFetched]
  | cons t rest ih =>
    unfold applyFetched
    rw [ih, applyFetchedTag_GetTag]
    by_cases hk : k = t
    · subst hk
      by_cases hv : getTagFromInstanceIdentityDocument d k = ""
      · simp [hv]
      · simp [hv]
    · simp [hk]

theorem applyFetched_name (x : Int) (env : CallEnv) (d : GetMetadataInstanceOutput)
    (nf : List String) (st : FetchState) :
    (applyFetched x env d nf st).metric.name = st.metric.name := by
  induction nf generalizing st with
  | nil => simp [applyFetched]
  | cons t rest ih =>
    unfold applyFetched
    rw [ih, applyFetchedTag_name]

theorem fetchedSets_cons (x : Int) (d : GetMetadataInstanceOutput) (t : String)
    (rest : List String) :
    fetchedSets x d (t :: rest) = fetchedSets x d [t] ++ fetchedSets x d rest := by
  unfold fetchedSets
  by_cases hv : getTagFromInstanceIdentityDocument d t = ""
  · simp [hv, List.filter_cons]
  · simp [hv, List.filter_cons]

theorem applyFetched_cacheSets (x : Int) (env : CallEnv) (d : GetMetadataInstanceOutput)
    (nf : List String) (st : FetchState) :
    (applyFetched x env d nf st).cacheSets = st.cacheSets ++ fetchedSets x d nf := by
  induction nf generalizing st with
  | nil => simp [applyFetched, fetchedSets]
  | cons t rest ih =>
    unfold applyFetched
    rw [ih, applyFetchedTag_cacheSets, fetchedSets_cons x d t rest, List.append_assoc]

theorem mem_fetchedSets (x : Int) (d : GetMetadataInstanceOutput) (nf : List String)
    (k v : String) (y : Int) :
    (k, v, y) ∈ fetchedSets x d nf ↔
      k ∈ nf ∧ getTagFromInstanceIdentityDocument d k ≠ "" ∧
        v = getTagFromInstanceIdentityDocument d k ∧ y = x := by
  unfold fetchedSets
  simp only [List.mem_map, List.mem_filter, bne_iff_ne, ne_eq, Prod.mk.injEq]
  constructor
  · rintro ⟨a, ⟨ha, hb⟩, hk, hv, hy⟩
    subst hk
    exact ⟨ha, hb, hv.symm, hy.symm⟩
  · rintro ⟨ha, hb, hv, hy⟩
    exact ⟨k, ⟨ha, hb⟩, rfl, hv.symm, hy.symm⟩

/-! ## The shape of one enrichment -/

theorem misses_eq_nil_iff (c : Cache) (now : Nat) (order : List String) :
    order.filter (fun t => (c.Get now t).isNone) = [] ↔ ∀ k ∈ order, c.Get now k ≠ none := by
  induction order with
  | nil => simp
  | cons t rest ih =>
    cases hg : c.Get now t with
    | none => simp [List.filter_cons, hg]
    | some v => simp [List.filter_cons, hg, ih]

theorem mem_misses (c : Cache) (now : Nat) (order : List String) (k : String) :
    k ∈ order.filter (fun t => (c.Get now t).isNone) ↔ k ∈ order ∧ c.Get now k = none := by
  simp [List.mem_filter]

theorem cachedView_of_hit (c : Cache) (now : Nat) (order : List String) (m : Metric)
    (k v : String) (hk : k ∈ order) (hg : c.Get now k = some v) :
    cachedView c now order m k = some v := by
  simp [cachedView, hk, hg]

theorem cachedView_of_miss (c : Cache) (now : Nat) (order : List String) (m : Metric)
    (k : String) (hg : c.Get now k = none) :
    cachedView c now order m k = m.GetTag k := by
  simp [cachedView, hg]

theorem cachedView_of_not_mem (c : Cache) (now : Nat) (order : List String) (m : Metric)
    (k : String) (hk : k ∉ order) :
    cachedView c now order m k = m.GetTag k := by
  simp [cachedView, hk]

/-- A call of `LookupIMDSTags` on a started processor returns, and the record, the
number of metadata calls and the cache writes are these. -/
theorem LookupIMDSTags_shape (r : GCPIMDSProcessor) (c : Cache) (env : CallEnv)
    (order : List String) (m : Metric) (hc : r.tagCache = some c) :
    ∃ o, LookupIMDSTags r env order m = some o ∧
      o.metric.name = m.name ∧
      o.adapterCalls = (if ∀ k ∈ order, c.Get env.now k ≠ none then 0 else 1) ∧
      (∀ k, o.metric.GetTag k = resultView c env order m k) ∧
      (∀ k v x, (k, v, x) ∈ o.cacheSets ↔
        (k ∈ order ∧ c.Get env.now k = none ∧ ∃ d, env.fetch = Except.ok d ∧
          getTagFromInstanceIdentityDocument d k ≠ "" ∧
          v = getTagFromInstanceIdentityDocument d k ∧ x = expirationOf r)) := by
  unfold LookupIMDSTags
  simp only [hc, lookupCached_notFound, List.nil_append]
  by_cases hnil : order.filter (fun t => (c.Get env.now t).isNone) = []
  · have hall := (misses_eq_nil_iff c env.now order).1 hnil
    simp only [hnil, List.length_nil, beq_self_eq_true, if_true]
    refine ⟨_, rfl, lookupCached_name _ _ _ _ _, (if_pos hall).symm, ?_, ?_⟩
    · intro k
      rw [lookupCached_GetTag]
      unfold resultView
      cases hf : env.fetch with
      | error e => rfl
      | ok d =>
        have hno : ¬ (k ∈ order ∧ c.Get env.now k = none ∧
            getTagFromInstanceIdentityDocument d k ≠ "") := fun h => hall k h.1 h.2.1
        simp only [hno, if_false]
    · intro k v x
      constructor
      · intro h
        simp at h
      · rintro ⟨hk, hg, _⟩
        exact absurd hg (hall k hk)
  · have hnall : ¬ ∀ k ∈ order, c.Get env.now k ≠ none :=
      fun h => hnil ((misses_eq_nil_iff c env.now order).2 h)
    have hlen : ((order.filter (fun t => (c.Get env.now t).isNone)).length == 0) = false := by
      simpa using hnil
    simp only [hlen, Bool.false_eq_true, if_false]
    cases hf : env.fetch with
    | error e =>
      refine ⟨_, rfl, lookupCached_name _ _ _ _ _, (if_neg hnall).symm, ?_, ?_⟩
      · intro k
        simp only [lookupCached_GetTag, resultView, hf]
      · intro k v x
        constructor
        · intro h
          simp at h
        · rintro ⟨_, _, d, hd, _⟩
          simp at hd
    | ok d =>
      refine ⟨_, rfl, ?_, (if_neg hnall).symm, ?_, ?_⟩
      · simp only [applyFetched_name, lookupCached_name]
      · intro k
        simp only [applyFetched_GetTag, lookupCached_GetTag, resultView, hf, mem_misses,
          and_assoc]
      · intro k v x
        simp only [applyFetched_cacheSets, List.nil_append, mem_fetchedSets, mem_misses]
        constructor
        · rintro ⟨⟨hk, hg⟩, hv, hv2, hx⟩
          exact ⟨hk, hg, d, rfl, hv, hv2, hx⟩
        · rintro ⟨hk, hg, d2, hd, hv, hv2, hx⟩
          have hdd : d = d2 := by simpa using hd
          subst hdd
          exact ⟨⟨hk, hg⟩, hv, hv2, hx⟩

theorem resultView_of_hit (c : Cache) (env : CallEnv) (order : List String) (m : Metric)
    (k v : String) (hk : k ∈ order) (hg : c.Get env.now k = some v) :
    resultView c env order m k = some v := by
  unfold resultView
  cases env.fetch with
  | error e => exact cachedView_of_hit c env.now order m k v hk hg
  | ok d => simp [hg, cachedView_of_hit c env.now order m k v hk hg]

theorem resultView_of_not_mem (c : Cache) (env : CallEnv) (order : List String) (m : Metric)
    (k : String) (hk : k ∉ order) :
    resultView c env order m k = m.GetTag k := by
  unfold resultView
  cases env.fetch with
  | error e => exact cachedView_of_not_mem c env.now order m k hk
  | ok d => simp [hk, cachedView_of_not_mem c env.now order m k hk]

theorem resultView_miss_ok (c : Cache) (env : CallEnv) (order : List String) (m : Metric)
    (k : String) (d : GetMetadataInstanceOutput) (hk : k ∈ order)
    (hg : c.Get env.now k = none) (hf : env.fetch = Except.ok d) :
    resultView c env order m k =
      if getTagFromInstanceIdentityDocument d k ≠ "" then
        some (getTagFromInstanceIdentityDocument d k)
      else m.GetTag k := by
  unfold resultView
  simp only [hf, hk, hg, true_and, cachedView_of_miss c env.now order m k hg]

theorem resultView_miss_error (c : Cache) (env : CallEnv) (order : List String) (m : Metric)
    (k e : String) (hg : c.Get env.now k = none) (hf : env.fetch = Except.error e) :
    resultView c env order m k = m.GetTag k := by
  unfold resultView
  simp only [hf, cachedView_of_miss c env.now order m k hg]

/-! ## Enrichment from the cache alone -/

/-- C2: when every desired tag name has an unexpired entry in the cache,
`LookupIMDSTags` returns without calling `GetInstanceMetadata`, and the returned
record carries for every desired name the cached value of that name. -/
theorem LookupIMDSTags_all_cached (r : GCPIMDSProcessor) (c : Cache) (env : CallEnv)
    (order : List String) (m : Metric) (hc : r.tagCache = some c)
    (hperm : order.Perm r.imdsTagsMap)
    (hall : ∀ k ∈ r.imdsTagsMap, (c.Get env.now k).isSome = true) :
    ∃ o, LookupIMDSTags r env order m = some o ∧ o.adapterCalls = 0 ∧
      ∀ k ∈ r.imdsTagsMap, o.metric.GetTag k = c.Get env.now k := by
  obtain ⟨o, ho, _, hcalls, htag, _⟩ := LookupIMDSTags_shape r c env order m hc
  refine ⟨o, ho, ?_, ?_⟩
  · rw [hcalls, if_pos]
    intro k hk hnone
    have h := hall k (hperm.mem_iff.1 hk)
    rw [hnone] at h
    exact Bool.noConfusion h
  · intro k hk
    obtain ⟨v, hv⟩ := Option.isSome_iff_exists.1 (hall k hk)
    rw [htag, resultView_of_hit c env order m k v (hperm.mem_iff.2 hk) hv, hv]

/-! ## Enrichment with a successful metadata call -/

/-- C3: when some desired name misses the cache and the metadata call succeeds,
`LookupIMDSTags` makes exactly one metadata call, and for every desired name that
missed the cache: a non-empty document field is carried by the returned record and a
cache `Set` of the name, the field and the configured expiration is issued, whatever
the cache answers to the write; an empty field leaves the tag of that name as on
input and issues no cache write for it. -/
theorem LookupIMDSTags_fetch_ok (r : GCPIMDSProcessor) (c : Cache) (env : CallEnv)
    (order : List String) (m : Metric) (d : GetMetadataInstanceOutput)
    (hc : r.tagCache = some c) (hperm : order.Perm r.imdsTagsMap)
    (hmiss : ∃ k ∈ r.imdsTagsMap, c.Get env.now k = none)
    (hf : env.fetch = Except.ok d) :
    ∃ o, LookupIMDSTags r env order m = some o ∧ o.adapterCalls = 1 ∧
      ∀ k ∈ r.imdsTagsMap, c.Get env.now k = none →
        (getTagFromInstanceIdentityDocument d k ≠ "" →
          o.metric.GetTag k = some (getTagFromInstanceIdentityDocument d k) ∧
          (k, getTagFromInstanceIdentityDocument d k, expirationOf r) ∈ o.cacheSets) ∧
        (getTagFromInstanceIdentityDocument d k = "" →
          o.metric.GetTag k = m.GetTag k ∧ ∀ v x, (k, v, x) ∉ o.cacheSets) := by
  obtain ⟨o, ho, _, hcalls, htag, hsets⟩ := LookupIMDSTags_shape r c env order m hc
  refine ⟨o, ho, ?_, ?_⟩
  · rw [hcalls, if_neg]
    intro hallhit
    obtain ⟨k, hk, hg⟩ := hmiss
    exact hallhit k (hperm.mem_iff.2 hk) hg
  · intro k hk hg
    have hko : k ∈ order := hperm.mem_iff.2 hk
    constructor
    · intro hv
      constructor
      · rw [htag, resultView_miss_ok c env order m k d hko hg hf, if_pos hv]
      · exact (hsets k _ _).2 ⟨hko, hg, d, hf, hv, rfl, rfl⟩
    · intro hv
      constructor
      · rw [htag, resultView_miss_ok c env order m k d hko hg hf, if_neg (by simp [hv])]
      · intro v x hmem
        obtain ⟨_, _, d2, hd2, hne, _, _⟩ := (hsets k v x).1 hmem
        rw [hf] at hd2
        have hdd : d = d2 := by simpa using hd2
        subst hdd
        exact hne hv

/-! ## Frame and order independence -/

/-- C9: whatever the cache holds and however the metadata call ends, `LookupIMDSTags`
removes no tag, and every tag name outside the desired set has on the returned
record the value (or absence) it had on the input record. -/
theorem LookupIMDSTags_frame (r : GCPIMDSProcessor) (c : Cache) (env : CallEnv)
    (order : List String) (m : Metric) (hc : r.tagCache = some c)
    (hperm : order.Perm r.imdsTagsMap) :
    ∃ o, LookupIMDSTags r env order m = some o ∧
      (∀ k, m.GetTag k ≠ none → o.metric.GetTag k ≠ none) ∧
      (∀ k, k ∉ r.imdsTagsMap → o.metric.GetTag k = m.GetTag k) := by
  obtain ⟨o, ho, _, _, htag, _⟩ := LookupIMDSTags_shape r c env order m hc
  refine ⟨o, ho, ?_, ?_⟩
  · intro k hk
    rw [htag]
    by_cases hko : k ∈ order
    · cases hg : c.Get env.now k with
      | some v =>
        rw [resultView_of_hit c env order m k v hko hg]
        exact Option.some_ne_none v
      | none =>
        cases hf : env.fetch with
        | error e =>
          rw [resultView_miss_error c env order m k e hg hf]
          exact hk
        | ok d =>
          rw [resultView_miss_ok c env order m k d hko hg hf]
          split
          · exact Option.some_ne_none _
          · exact hk
    · rw [resultView_of_not_mem c env order m k hko]
      exact hk
  · intro k hk
    rw [htag]
    exact resultView_of_not_mem c env order m k (fun h => hk (hperm.mem_iff.1 h))

theorem resultView_perm (c : Cache) (env : CallEnv) (o1 o2 : List String) (m : Metric)
    (k : String) (h : o1.Perm o2) :
    resultView c env o1 m k = resultView c env o2 m k := by
  unfold resultView cachedView
  simp only [h.mem_iff]

/-- C10: two visiting orders of the same desired-tag set give, for every record,
cache state and outcome of the metadata call, the same tag mapping on the returned
record, the same number of metadata calls and the same set of (key, value) cache writes. -/
theorem LookupIMDSTags_order_independent (r : GCPIMDSProcessor) (c : Cache) (env : CallEnv)
    (order1 order2 : List String) (m : Metric) (hc : r.tagCache = some c)
    (h1 : order1.Perm r.imdsTagsMap) (h2 : order2.Perm r.imdsTagsMap) :
    ∃ a b, LookupIMDSTags r env order1 m = some a ∧ LookupIMDSTags r env order2 m = some b ∧
      (∀ k, a.metric.GetTag k = b.metric.GetTag k) ∧
      a.adapterCalls = b.adapterCalls ∧
      (∀ k v, (∃ x, (k, v, x) ∈ a.cacheSets) ↔ (∃ x, (k, v, x) ∈ b.cacheSets)) := by
  have h12 : order1.Perm order2 := h1.trans h2.symm
  obtain ⟨a, ha, _, hca, hta, hsa⟩ := LookupIMDSTags_shape r c env order1 m hc
  obtain ⟨b, hb, _, hcb, htb, hsb⟩ := LookupIMDSTags_shape r c env order2 m hc
  refine ⟨a, b, ha, hb, ?_, ?_, ?_⟩
  · intro k
    rw [hta, htb, resultView_perm c env order1 order2 m k h12]
  · rw [hca, hcb]
    simp only [h12.mem_iff]
  · intro k v
    simp only [hsa, hsb, h12.mem_iff]

/-! ## A failed metadata call -/

theorem lookupCached_all_miss (c : Cache) (now : Nat) (order : List String) (m : Metric)
    (nf : List String) (h : ∀ k ∈ order, c.Get now k = none) :
    (lookupCached c now order m nf).1 = m := by
  induction order generalizing nf with
  | nil => simp [lookupCached]
  | cons t rest ih =>
    unfold lookupCached
    have ht : c.Get now t = none := h t (List.mem_cons_self t rest)
    simp only [ht]
    exact ih _ (fun k hk => h k (List.mem_cons_of_mem t hk))

theorem LookupIMDSTags_error_eq (r : GCPIMDSProcessor) (c : Cache) (env : CallEnv)
    (order : List String) (m : Metric) (e : String) (hc : r.tagCache = some c)
    (hmiss : ∃ k ∈ order, c.Get env.now k = none) (hf : env.fetch = Except.error e) :
    LookupIMDSTags r env order m =
      some { metric := (lookupCached c env.now order m []).1,
             processor := { r with Log := r.Log ++
               [⟨LogLevel.error, "Error when calling GetInstanceMetadata: " ++ e⟩] },
             adapterCalls := 1, cacheSets := [] } := by
  unfold LookupIMDSTags
  have hnil : order.filter (fun t => (c.Get env.now t).isNone) ≠ [] := by
    intro h
    obtain ⟨k, hk, hg⟩ := hmiss
    exact (misses_eq_nil_iff c env.now order).1 h k hk hg
  have hlen : ((order.filter (fun t => (c.Get env.now t).isNone)).length == 0) = false := by
    simpa using hnil
  simp only [hc, lookupCached_notFound, List.nil_append, hlen, Bool.false_eq_true, if_false, hf]

/-- C4: fail-open.  When some desired name misses the cache and the metadata call
fails, `asyncAdd` returns exactly one record: the input record with the cache hits
applied and every name that missed the cache (and every name outside the desired
set) as on input, so the very input record when nothing was cached; the cache is
unchanged, and exactly one error line is logged. -/
theorem asyncAdd_fail_open (r : GCPIMDSProcessor) (c : Cache) (env : CallEnv)
    (order : List String) (m : Metric) (e : String) (hc : r.tagCache = some c)
    (hperm : order.Perm r.imdsTagsMap)
    (hmiss : ∃ k ∈ r.imdsTagsMap, c.Get env.now k = none)
    (hf : env.fetch = Except.error e) :
    ∃ ao out, asyncAdd r env order m = some ao ∧ ao.metrics = [out] ∧
      out.name = m.name ∧
      (∀ k ∈ r.imdsTagsMap, ∀ v, c.Get env.now k = some v → out.GetTag k = some v) ∧
      (∀ k ∈ r.imdsTagsMap, c.Get env.now k = none → out.GetTag k = m.GetTag k) ∧
      (∀ k, k ∉ r.imdsTagsMap → out.GetTag k = m.GetTag k) ∧
      ((∀ k ∈ r.imdsTagsMap, c.Get env.now k = none) → out = m) ∧
      ao.processor.tagCache = some c ∧
      (∃ entry, entry.level = LogLevel.error ∧ ao.processor.Log = r.Log ++ [entry]) ∧
      ao.adapterCalls = 1 ∧ ao.cacheSets = [] := by
  have hmiss2 : ∃ k ∈ order, c.Get env.now k = none := by
    obtain ⟨k, hk, hg⟩ := hmiss
    exact ⟨k, hperm.mem_iff.2 hk, hg⟩
  have hpos : r.imdsTagsMap.length > 0 := by
    obtain ⟨k, hk, _⟩ := hmiss
    exact List.length_pos_of_mem hk
  have hL := LookupIMDSTags_error_eq r c env order m e hc hmiss2 hf
  refine ⟨{ metrics := [(lookupCached c env.now order m []).1],
            processor := { r with Log := r.Log ++
              [⟨LogLevel.error, "Error when calling GetInstanceMetadata: " ++ e⟩] },
            adapterCalls := 1, cacheSets := [] },
    (lookupCached c env.now order m []).1, ?_, rfl, ?_, ?_, ?_, ?_, ?_, ?_, ?_, ?_, ?_⟩
  · unfold asyncAdd
    rw [if_pos hpos, hL]
  · exact lookupCached_name _ _ _ _ _
  · intro k hk v hv
    rw [lookupCached_GetTag]
    exact cachedView_of_hit c env.now order m k v (hperm.mem_iff.2 hk) hv
  · intro k _ hg
    rw [lookupCached_GetTag]
    exact cachedView_of_miss c env.now order m k hg
  · intro k hk
    rw [lookupCached_GetTag]
    exact cachedView_of_not_mem c env.now order m k (fun h => hk (hperm.mem_iff.1 h))
  · intro hall
    exact lookupCached_all_miss c env.now order m [] (fun k hk => hall k (hperm.mem_iff.1 hk))
  · exact hc
  · exact ⟨_, rfl, rfl⟩
  · rfl
  · rfl

/-! ## What the cache holds after a successful enrichment -/

theorem find_filter_other (l : List CacheEntry) (k k2 : String) (h : k2 ≠ k) :
    (l.filter (fun e => e.key != k)).find? (fun e => e.key == k2) =
      l.find? (fun e => e.key == k2) := by
  induction l with
  | nil => rfl
  | cons a rest ih =>
    by_cases ha : a.key = k
    · have e1 : (a.key != k) = false := by simp [ha]
      have e2 : (a.key == k2) = false := by
        rw [beq_eq_false_iff_ne]
        exact fun h3 => h (h3.symm.trans ha)
      simp only [List.filter_cons, e1, Bool.false_eq_true, ↓reduceIte, List.find?_cons, e2]
      exact ih
    · have e1 : (a.key != k) = true := by simp [ha]
      by_cases hb : a.key = k2
      · have e2 : (a.key == k2) = true := by simp [hb]
        simp only [List.filter_cons, e1, ↓reduceIte, List.find?_cons, e2]
      · have e2 : (a.key == k2) = false := by simp [hb]
        simp only [List.filter_cons, e1, ↓reduceIte, List.find?_cons, e2]
        exact ih

theorem peek_Set (c : Cache) (now : Nat) (k v : String) (x : Int) (k2 : String) :
    (c.Set now k v x).peek k2 = if k2 = k then some v else c.peek k2 := by
  unfold Cache.Set Cache.peek
  by_cases h : k2 = k
  · subst h
    simp [List.find?_cons]
  · have h2 : (k == k2) = false := by
      rw [beq_eq_false_iff_ne]
      exact fun h3 => h h3.symm
    simp only [List.find?_cons, h2, find_filter_other c.entries k k2 h, if_neg h]

theorem applyFetchedTag_peek (x : Int) (env : CallEnv) (d : GetMetadataInstanceOutput)
    (st : FetchState) (tag k : String) :
    (applyFetchedTag x env d st tag).cache.peek k =
      if k = tag ∧ getTagFromInstanceIdentityDocument d tag ≠ "" ∧
          env.setError tag (getTagFromInstanceIdentityDocument d tag) = none then
        some (getTagFromInstanceIdentityDocument d tag)
      else st.cache.peek k := by
  unfold applyFetchedTag
  by_cases hv : getTagFromInstanceIdentityDocument d tag = ""
  · simp [hv]
  · cases ha : env.setError tag (getTagFromInstanceIdentityDocument d tag) with
    | none => simp [hv, ha, peek_Set]
    | some err => simp [hv, ha]

theorem applyFetched_peek (x : Int) (env : CallEnv) (d : GetMetadataInstanceOutput)
    (nf : List String) (st : FetchState) (k : String) :
    (applyFetched x env d nf st).cache.peek k =
      if k ∈ nf ∧ getTagFromInstanceIdentityDocument d k ≠ "" ∧
          env.setError k (getTagFromInstanceIdentityDocument d k) = none then
        some (getTagFromInstanceIdentityDocument d k)
      else st.cache.peek k := by
  induction nf generalizing st with
  | nil => simp [applyFetched]
  | cons t rest ih =>
    unfold applyFetched
    rw [ih, applyFetchedTag_peek]
    by_cases hk : k = t
    · subst hk
      by_cases hv : getTagFromInstanceIdentityDocument d k ≠ "" ∧
          env.setError k (getTagFromInstanceIdentityDocument d k) = none
      · simp [hv]
      · have hv2 : ¬ (k ∈ rest ∧ getTagFromInstanceIdentityDocument d k ≠ "" ∧
            env.setError k (getTagFromInstanceIdentityDocument d k) = none) := fun h => hv h.2
        have hv3 : ¬ (k = k ∧ getTagFromInstanceIdentityDocument d k ≠ "" ∧
            env.setError k (getTagFromInstanceIdentityDocument d k) = none) := fun h => hv h.2
        have hv4 : ¬ (k ∈ k :: rest ∧ getTagFromInstanceIdentityDocument d k ≠ "" ∧
            env.setError k (getTagFromInstanceIdentityDocument d k) = none) := fun h => hv h.2
        rw [if_neg hv2, if_neg hv3, if_neg hv4]
    · simp [hk]

theorem Get_of_peek (c : Cache) (now : Nat) (k v : String) (hp : c.peek k = some v)
    (hexp : ∀ e ∈ c.entries, e.expired now = false) : c.Get now k = some v := by
  unfold Cache.peek at hp
  unfold Cache.Get
  cases hfind : c.entries.find? (fun e => e.key == k) with
  | none =>
    rw [hfind] at hp
    simp at hp
  | some e =>
    rw [hfind] at hp
    have hmem : e ∈ c.entries := List.mem_of_find?_eq_some hfind
    have hval : e.value = v := by simpa using hp
    simp [hexp e hmem, hval]

theorem LookupIMDSTags_ok_eq (r : GCPIMDSProcessor) (c : Cache) (env : CallEnv)
    (order : List String) (m : Metric) (d : GetMetadataInstanceOutput)
    (hc : r.tagCache = some c)
    (hmiss : ∃ k ∈ order, c.Get env.now k = none) (hf : env.fetch = Except.ok d) :
    LookupIMDSTags r env order m =
      some { metric := (applyFetched (expirationOf r) env d
                (order.filter (fun t => (c.Get env.now t).isNone))
                { metric := (lookupCached c env.now order m []).1, cache := c,
                  log := r.Log, cacheSets := [] }).metric,
             processor := { r with
               tagCache := some (applyFetched (expirationOf r) env d
                (order.filter (fun t => (c.Get env.now t).isNone))
                { metric := (lookupCached c env.now order m []).1, cache := c,
                  log := r.Log, cacheSets := [] }).cache,
               Log := (applyFetched (expirationOf r) env d
                (order.filter (fun t => (c.Get env.now t).isNone))
                { metric := (lookupCached c env.now order m []).1, cache := c,
                  log := r.Log, cacheSets := [] }).log },
             adapterCalls := 1,
             cacheSets := (applyFetched (expirationOf r) env d
                (order.filter (fun t => (c.Get env.now t).isNone))
                { metric := (lookupCached c env.now order m []).1, cache := c,
                  log := r.Log, cacheSets := [] }).cacheSets } := by
  unfold LookupIMDSTags
  have hnil : order.filter (fun t => (c.Get env.now t).isNone) ≠ [] := by
    intro h
    obtain ⟨k, hk, hg⟩ := hmiss
    exact (misses_eq_nil_iff c env.now order).1 h k hk hg
  have hlen : ((order.filter (fun t => (c.Get env.now t).isNone)).length == 0) = false := by
    simpa using hnil
  simp only [hc, lookupCached_notFound, List.nil_append, hlen, Bool.false_eq_true, if_false, hf]

/-- C5, as amended: starting from a cache that holds none of the desired names, after
one enrichment whose metadata call succeeds with a non-empty field for every desired
name and whose cache writes are admitted, an enrichment of any record with the same
desired set, at a time when no entry has expired, makes no metadata call and yields
for every desired name the tag of the first enrichment. -/
theorem LookupIMDSTags_then_cached (r : GCPIMDSProcessor) (c : Cache) (env : CallEnv)
    (order : List String) (m : Metric) (d : GetMetadataInstanceOutput)
    (hc : r.tagCache = some c) (hperm : order.Perm r.imdsTagsMap)
    (hne : r.imdsTagsMap ≠ [])
    (hcold : ∀ k ∈ r.imdsTagsMap, c.Get env.now k = none)
    (hf : env.fetch = Except.ok d)
    (hadm : ∀ k ∈ r.imdsTagsMap,
      env.setError k (getTagFromInstanceIdentityDocument d k) = none)
    (hfield : ∀ k ∈ r.imdsTagsMap, getTagFromInstanceIdentityDocument d k ≠ "") :
    ∃ o1 c1, LookupIMDSTags r env order m = some o1 ∧ o1.adapterCalls = 1 ∧
      o1.processor.tagCache = some c1 ∧ o1.processor.imdsTagsMap = r.imdsTagsMap ∧
      ∀ (env2 : CallEnv) (order2 : List String) (m2 : Metric),
        order2.Perm r.imdsTagsMap → (∀ e ∈ c1.entries, e.expired env2.now = false) →
        ∃ o2, LookupIMDSTags o1.processor env2 order2 m2 = some o2 ∧
          o2.adapterCalls = 0 ∧
          ∀ k ∈ r.imdsTagsMap, o2.metric.GetTag k = o1.metric.GetTag k := by
  have hmiss : ∃ k ∈ order, c.Get env.now k = none := by
    obtain ⟨k, hk⟩ := List.exists_mem_of_ne_nil _ hne
    exact ⟨k, hperm.mem_iff.2 hk, hcold k hk⟩
  have hL := LookupIMDSTags_ok_eq r c env order m d hc hmiss hf
  refine ⟨_, _, hL, rfl, rfl, rfl, ?_⟩
  intro env2 order2 m2 hp2 hexp
  have hget : ∀ k ∈ r.imdsTagsMap,
      (applyFetched (expirationOf r) env d
        (order.filter (fun t => (c.Get env.now t).isNone))
        { metric := (lookupCached c env.now order m []).1, cache := c,
          log := r.Log, cacheSets := [] }).cache.Get env2.now k =
        some (getTagFromInstanceIdentityDocument d k) := by
    intro k hk
    apply Get_of_peek _ _ _ _ _ hexp
    rw [applyFetched_peek, if_pos]
    exact ⟨(mem_misses c env.now order k).2 ⟨hperm.mem_iff.2 hk, hcold k hk⟩,
      hfield k hk, hadm k hk⟩
  obtain ⟨o2, ho2, _, hcalls, htag, _⟩ :=
    LookupIMDSTags_shape _ _ env2 order2 m2
      (rfl : ({ r with
        tagCache := some (applyFetched (expirationOf r) env d
          (order.filter (fun t => (c.Get env.now t).isNone))
          { metric := (lookupCached c env.now order m []).1, cache := c,
            log := r.Log, cacheSets := [] }).cache,
        Log := (applyFetched (expirationOf r) env d
          (order.filter (fun t => (c.Get env.now t).isNone))
          { metric := (lookupCached c env.now order m []).1, cache := c,
            log := r.Log, cacheSets := [] }).log } : GCPIMDSProcessor).tagCache = some _)
  refine ⟨o2, ho2, ?_, ?_⟩
  · rw [hcalls, if_pos]
    intro k hk hnone
    rw [hget k (hp2.mem_iff.1 hk)] at hnone
    exact Option.noConfusion hnone
  · intro k hk
    rw [htag, resultView_of_hit _ env2 order2 m2 k _ (hp2.mem_iff.2 hk) (hget k hk),
      applyFetched_GetTag, if_pos]
    exact ⟨(mem_misses c env.now order k).2 ⟨hperm.mem_iff.2 hk, hcold k hk⟩, hfield k hk⟩

/-- C5, as stated, fails: with the desired tags id and zone, an empty cache and a
document whose zone field is empty, the first enrichment succeeds and its one cache
write is admitted, yet the second enrichment calls the metadata service again. -/
theorem second_enrichment_calls_again :
    exampleProcessor.tagCache = some { entries := [] } ∧
    exampleProcessor.imdsTagsMap = ["id", "zone"] ∧
    (LookupIMDSTags exampleProcessor envWithoutZone ["id", "zone"] exampleMetric).map
      (fun o => (o.adapterCalls, o.cacheSets)) = some (1, [("id", "i-1", 0)]) ∧
    ((LookupIMDSTags exampleProcessor envWithoutZone ["id", "zone"] exampleMetric).bind
      (fun o1 => LookupIMDSTags o1.processor envWithoutZone ["id", "zone"] exampleMetric)).map
      (fun o => o.adapterCalls) = some 1 := by
  decide

/-! ## The expiration handed to the cache -/

theorem expirationOf_eq_zero_iff (r : GCPIMDSProcessor) (h : 0 ≤ r.CacheTTL) :
    expirationOf r = 0 ↔ r.CacheTTL < Second := by
  unfold expirationOf durationSeconds
  rw [Int.tdiv_eq_ediv h (by decide)]
  unfold Second
  omega

theorem expirationOf_pos_iff (r : GCPIMDSProcessor) (h : 0 ≤ r.CacheTTL) :
    0 < expirationOf r ↔ Second ≤ r.CacheTTL := by
  unfold expirationOf durationSeconds
  rw [Int.tdiv_eq_ediv h (by decide)]
  unfold Second
  omega

/-- C6: the code at a cache TTL of half a second.  The TTL is positive, yet the
expiration handed to the cache `Set` is 0, and the entries are written without
an expiration. -/
theorem halfSecond_ttl_written_without_expiration :
    0 < halfSecondProcessor.CacheTTL ∧
    expirationOf halfSecondProcessor = 0 ∧
    (LookupIMDSTags halfSecondProcessor envOk ["id", "zone"] exampleMetric).map
      (fun o => o.cacheSets) = some [("id", "i-1", 0), ("zone", "us-central1-a", 0)] ∧
    (LookupIMDSTags halfSecondProcessor envOk ["id", "zone"] exampleMetric).map
      (fun o => o.processor.tagCache) =
        some (some { entries := [{ key := "zone", value := "us-central1-a", expiresAt := none },
                                 { key := "id", value := "i-1", expiresAt := none }] }) := by
  decide

/-! ## Enqueue after `Stop` -/

/-- C7, as stated, fails: on the example processor after `Stop`, `Add` returns nil
when the engine takes the record, and does not return when the engine does not. -/
theorem Add_after_Stop_returns_nil :
    (Stop exampleProcessor).parallelEngine =
      some { ordered := false, queueSize := none, workers := 10, stopped := true } ∧
    Add (Stop exampleProcessor) (fun _ _ => EnqueueEnd.returns) exampleMetric = some none ∧
    Add (Stop exampleProcessor) (fun _ _ => EnqueueEnd.noReturn) exampleMetric = none := by
  decide

/-- C7, as amended: after `Stop`, for every record and however the engine behaves,
`Add` never returns a non-nil error: it returns nil, or it does not return. -/
theorem Add_after_Stop_never_rejects (r : GCPIMDSProcessor)
    (enqueue : Parallel → Metric → EnqueueEnd) (m : Metric) :
    Add (Stop r) enqueue m = none ∨ Add (Stop r) enqueue m = some none := by
  unfold Add
  cases (Stop r).parallelEngine with
  | none => exact Or.inl rfl
  | some p =>
    cases he : enqueue p m with
    | returns => simp [he]
    | noReturn => simp [he]

/-! ## The theorems at concrete inputs -/

theorem LookupIMDSTags_all_cached_witness :
    ∃ o, LookupIMDSTags warmProcessor envOk ["zone", "id"] exampleMetric = some o ∧
      o.adapterCalls = 0 ∧
      ∀ k ∈ warmProcessor.imdsTagsMap, o.metric.GetTag k = warmCache.Get envOk.now k :=
  LookupIMDSTags_all_cached warmProcessor warmCache envOk ["zone", "id"] exampleMetric rfl
    (List.Perm.swap "id" "zone" []) (by decide)

theorem LookupIMDSTags_fetch_ok_witness :
    ∃ o, LookupIMDSTags idOnlyProcessor envCacheRefuses ["zone", "id"] exampleMetric = some o ∧
      o.adapterCalls = 1 ∧
      ∀ k ∈ idOnlyProcessor.imdsTagsMap, idOnlyCache.Get envCacheRefuses.now k = none →
        (getTagFromInstanceIdentityDocument exampleDocument k ≠ "" →
          o.metric.GetTag k = some (getTagFromInstanceIdentityDocument exampleDocument k) ∧
          (k, getTagFromInstanceIdentityDocument exampleDocument k,
            expirationOf idOnlyProcessor) ∈ o.cacheSets) ∧
        (getTagFromInstanceIdentityDocument exampleDocument k = "" →
          o.metric.GetTag k = exampleMetric.GetTag k ∧ ∀ v x, (k, v, x) ∉ o.cacheSets) :=
  LookupIMDSTags_fetch_ok idOnlyProcessor idOnlyCache envCacheRefuses ["zone", "id"] exampleMetric
    exampleDocument rfl (List.Perm.swap "id" "zone" []) ⟨"zone", by decide, by decide⟩ rfl

theorem asyncAdd_fail_open_witness :
    ∃ ao out, asyncAdd idOnlyProcessor envFailing ["zone", "id"] exampleMetric = some ao ∧
      ao.metrics = [out] ∧ out.name = exampleMetric.name ∧
      (∀ k ∈ idOnlyProcessor.imdsTagsMap, ∀ v,
        idOnlyCache.Get envFailing.now k = some v → out.GetTag k = some v) ∧
      (∀ k ∈ idOnlyProcessor.imdsTagsMap,
        idOnlyCache.Get envFailing.now k = none → out.GetTag k = exampleMetric.GetTag k) ∧
      (∀ k, k ∉ idOnlyProcessor.imdsTagsMap → out.GetTag k = exampleMetric.GetTag k) ∧
      ((∀ k ∈ idOnlyProcessor.imdsTagsMap, idOnlyCache.Get envFailing.now k = none) →
        out = exampleMetric) ∧
      ao.processor.tagCache = some idOnlyCache ∧
      (∃ entry, entry.level = LogLevel.error ∧
        ao.processor.Log = idOnlyProcessor.Log ++ [entry]) ∧
      ao.adapterCalls = 1 ∧ ao.cacheSets = [] :=
  asyncAdd_fail_open idOnlyProcessor idOnlyCache envFailing ["zone", "id"] exampleMetric
    "context deadline exceeded" rfl (List.Perm.swap "id" "zone" [])
    ⟨"zone", by decide, by decide⟩ rfl

theorem LookupIMDSTags_then_cached_witness :
    ∃ o1 c1, LookupIMDSTags exampleProcessor envOk ["id", "zone"] exampleMetric = some o1 ∧
      o1.adapterCalls = 1 ∧
      o1.processor.tagCache = some c1 ∧
      o1.processor.imdsTagsMap = exampleProcessor.imdsTagsMap ∧
      ∀ (env2 : CallEnv) (order2 : List String) (m2 : Metric),
        order2.Perm exampleProcessor.imdsTagsMap →
        (∀ e ∈ c1.entries, e.expired env2.now = false) →
        ∃ o2, LookupIMDSTags o1.processor env2 order2 m2 = some o2 ∧
          o2.adapterCalls = 0 ∧
          ∀ k ∈ exampleProcessor.imdsTagsMap, o2.metric.GetTag k = o1.metric.GetTag k :=
  LookupIMDSTags_then_cached exampleProcessor { entries := [] } envOk ["id", "zone"]
    exampleMetric exampleDocument rfl (List.Perm.refl _) (by decide) (by decide) rfl
    (by decide) (by decide)

theorem LookupIMDSTags_frame_witness :
    ∃ o, LookupIMDSTags idOnlyProcessor envOk ["zone", "id"] exampleMetric = some o ∧
      (∀ k, exampleMetric.GetTag k ≠ none → o.metric.GetTag k ≠ none) ∧
      (∀ k, k ∉ idOnlyProcessor.imdsTagsMap → o.metric.GetTag k = exampleMetric.GetTag k) :=
  LookupIMDSTags_frame idOnlyProcessor idOnlyCache envOk ["zone", "id"] exampleMetric rfl
    (List.Perm.swap "id" "zone" [])

theorem LookupIMDSTags_order_independent_witness :
    ∃ a b, LookupIMDSTags idOnlyProcessor envOk ["zone", "id"] exampleMetric = some a ∧
      LookupIMDSTags idOnlyProcessor envOk ["id", "zone"] exampleMetric = some b ∧
      (∀ k, a.metric.GetTag k = b.metric.GetTag k) ∧
      a.adapterCalls = b.adapterCalls ∧
      (∀ k v, (∃ x, (k, v, x) ∈ a.cacheSets) ↔ (∃ x, (k, v, x) ∈ b.cacheSets)) :=
  LookupIMDSTags_order_independent idOnlyProcessor idOnlyCache envOk ["zone", "id"]
    ["id", "zone"] exampleMetric rfl (List.Perm.swap "id" "zone" []) (List.Perm.refl _)

end GcpImds
